import Mathlib

/-!
Verification of the core dispatch / module-registry subsystem of the lp-bot
repository (a Discord listening-party bot), against its natural-language
specification.

The embedding below follows the Rust sources:
* `src/src/main.rs` — `Handler::process_command`, `Handler::process_autocomplete`,
  `Handler::interaction_create` (the dispatcher);
* `src/src/command_context.rs` and `serenity-command/src/lib.rs` —
  `CommandResponse` and `CommandResponse::to_contents_and_flags`;
* `src/src/commands.rs` — `register_commands` (command-table registration);
* `serenity-command-handler/src/modules/lp.rs` — `ModLp::complete_lp`,
  `ModLp::add_dependencies`;
* `serenity-command-handler/src/modules/spotify.rs` — the `Module`
  implementations for the two Spotify client flavours;
* `serenity-command-handler/src/modules/ready_poll.rs` — `ReadyPoll::create_poll`.

The handler crate's own `lib.rs` (`HandlerBuilder`, `ModuleMap`,
`CommandStore`, `CompletionStore`) is not part of the provided sources; where a
definition has to stand in for that code it is modelled from the specification
and its doc comment says so explicitly.
-/

namespace LpBot

/-- Message visibility flags: the code only ever uses the empty flag set
(public) or the `EPHEMERAL` bit (visible only to the invoker). Models
`InteractionApplicationCommandCallbackDataFlags` / `MessageFlags`. -/
inductive MessageFlags
  | empty
  | ephemeral
  deriving DecidableEq, Repr

/-- Models `CommandResponse` (serenity-command/src/lib.rs lines 11-15 and
src/src/command_context.rs lines 18-22): the outcome of a successful command
execution. `priv` models the `Private` variant (`private` is a Lean keyword). -/
inductive CommandResponse
  | none
  | public (s : String)
  | priv (s : String)
  deriving DecidableEq, Repr

/-- Models `CommandResponse::to_contents_and_flags` (serenity-command/src/lib.rs lines
32-40, identical in src/src/command_context.rs lines 24-38): `None` yields no
message; `Public` yields the string with empty flags; `Private` yields the
string with the `EPHEMERAL` flag. -/
def CommandResponse.to_contents_and_flags :
    CommandResponse → Option (String × MessageFlags)
  | CommandResponse.none => Option.none
  | CommandResponse.public s => some (s, MessageFlags.empty)
  | CommandResponse.priv s => some (s, MessageFlags.ephemeral)

/-- An error value: `anyhow::Error` is modelled by the description string its
`to_string()` produces. -/
structure Err where
  desc : String
  deriving DecidableEq, Repr

/-- One reply message sent on an interaction. -/
structure Reply where
  contents : String
  flags : MessageFlags
  deriving DecidableEq, Repr

/-- Models `Handler::interaction_create` (src/src/main.rs lines 407-445), application
command branch: given the result of `process_command`, the list of replies the
dispatcher creates on the interaction. `Ok(CommandResponse::None)` returns
without replying; `Ok(Public s)` sends `s` with empty flags; `Ok(Private s)`
sends `s` with the `EPHEMERAL` flag; `Err(e)` sends the error's description
with the `EPHEMERAL` flag. Exactly one `create_interaction_response` call is
made in the three non-`None` cases. -/
def interaction_create (result : Except Err CommandResponse) : List Reply :=
  match result with
  | Except.ok CommandResponse.none => []
  | Except.ok (CommandResponse.public s) => [⟨s, MessageFlags.empty⟩]
  | Except.ok (CommandResponse.priv s) => [⟨s, MessageFlags.ephemeral⟩]
  | Except.error e => [⟨e.desc, MessageFlags.ephemeral⟩]

/-- The command names `Handler::process_command` (src/src/main.rs lines
145-342) matches on; any other name falls into the
`_ => bail!("Unknown command")` arm (lines 340-341). -/
def commandNames : List String :=
  ["lp", "album", "relative", "setrole", "setcreatethreads", "setwebhook",
   "quote", "bday", "bdays", "add_autoreact", "remove_autoreact"]

/-- Models `Handler::process_command` (src/src/main.rs lines 145-342). Its
first statement (lines 146-150) extracts the interaction's guild id and
returns `Err(anyhow!("Must be run in a server"))` when the invocation carries
none; only then does it dispatch on the command name. The bodies of the
recognized commands perform I/O and are abstracted by `exec` (applied to the
guild id and the name); an unrecognized name bails with "Unknown command"
(lines 340-341). -/
def process_command (exec : Nat → String → Except Err CommandResponse)
    (guild : Option Nat) (name : String) : Except Err CommandResponse :=
  match guild with
  | Option.none => Except.error ⟨"Must be run in a server"⟩
  | some g =>
    if name ∈ commandNames then exec g name
    else Except.error ⟨"Unknown command"⟩

/-- Models serenity's `CommandType` (used by `CommandKey`): a command
is invoked from chat, from a user context menu, or from a message context
menu. -/
inductive CommandType
  | chatInput
  | user
  | message
  deriving DecidableEq, Repr

/-- Models `CommandKey` (serenity-command): a command's identity, name plus
invocation kind. `ModLp::complete_lp` compares its key against
`("lp", CommandType::ChatInput)`. -/
abbrev CommandKey := String × CommandType

/-- The command table of `register_commands` (src/src/commands.rs lines
493-514) is a `HashMap<CommandKey, Box<dyn CommandRunner>>`; a hash map is
modelled extensionally as a function from keys to optional descriptors. -/
def CommandTable (D : Type) := CommandKey → Option D

/-- Models `HashMap::insert`: the descriptor now stored under `k` is `d`, every other
key is unchanged. Insertion never fails; an existing entry under `k` is
silently replaced. -/
def tableInsert {D : Type} (t : CommandTable D) (k : CommandKey) (d : D) :
    CommandTable D :=
  fun k' => if k' = k then some d else t k'

/-- Models `HashMap::get`. -/
def tableGet {D : Type} (t : CommandTable D) (k : CommandKey) : Option D := t k

/-- Models `register_commands` (src/src/commands.rs lines 493-514) generalized to an
arbitrary registration sequence: each `(key, descriptor)` pair is inserted in
order via `HashMap::insert` (the closure `add` at lines 496-498). -/
def register_commands {D : Type} (t : CommandTable D)
    (regs : List (CommandKey × D)) : CommandTable D :=
  regs.foldl (fun acc kd => tableInsert acc kd.1 kd.2) t

/-- The most recently inserted descriptor for key `k` in the registration
sequence `regs`, if any: later entries win. -/
def lastInserted {D : Type} (regs : List (CommandKey × D)) (k : CommandKey) :
    Option D :=
  match regs with
  | [] => Option.none
  | kd :: rest =>
    match lastInserted rest k with
    | some d => some d
    | Option.none => if kd.1 = k then some kd.2 else Option.none

/-- One autocomplete suggestion reply: the list of `(name, value)` choices sent
via `create_autocomplete_response`. -/
structure AcReply where
  choices : List (String × String)
  deriving DecidableEq, Repr

/-- Models `ModLp::complete_lp` (serenity-command-handler/src/modules/lp.rs lines
288-309): a completion resolver. If the interaction's key is not
`("lp", CommandType::ChatInput)` it returns `false` without doing anything
else; otherwise it computes choices (via `autocomplete_lp`, whose network
lookups are abstracted by the `choices` argument), sends exactly one
autocomplete response carrying them, and returns `true`. The returned pair is
(claimed, replies sent). -/
def complete_lp (choices : List (String × String)) (key : CommandKey) :
    Bool × List AcReply :=
  if key ≠ ("lp", CommandType.chatInput) then (false, [])
  else (true, [⟨choices⟩])

/-- A completion resolver: inspects the interaction's command key and returns
whether it claimed the interaction together with the replies it sent while
doing so (the `CompletionHandler` function values pushed by
`register_commands`, e.g. `ModLp::complete_lp`). -/
abbrev Resolver := CommandKey → Bool × List AcReply

/-- Modelled from the spec: `CompletionStore::resolve` of the
serenity-command-handler crate is not under src/ (only its callers and the
resolvers registered into it are). Per §4.4 of the spec it "calls each
resolver in registration order, stopping at the first one that reports
claimed". The result is (claimed, all replies sent by the consulted
resolvers). -/
def resolveChain (resolvers : List Resolver) (key : CommandKey) :
    Bool × List AcReply :=
  match resolvers with
  | [] => (false, [])
  | r :: rest =>
    if (r key).1 then (true, (r key).2)
    else ((resolveChain rest key).1, (r key).2 ++ (resolveChain rest key).2)

/-- Modelled from the spec: the number of resolvers the chain consults —
consultation proceeds in registration order and stops at the first claim. -/
def consultedCount (resolvers : List Resolver) (key : CommandKey) : Nat :=
  match resolvers with
  | [] => 0
  | r :: rest => if (r key).1 then 1 else 1 + consultedCount rest key

/-- Modelled from the spec: the dispatcher's autocomplete branch (§4.4, §4.5).
It delegates to the resolver chain; "if none claims it, the dispatcher must
still answer the interaction with an empty suggestion set". The corresponding
in-source dispatcher `Handler::process_autocomplete` (src/src/main.rs lines
344-402) shows the same fallthrough: an unmatched command name leaves `choices`
empty and a single response carrying it is still sent. -/
def dispatch_autocomplete (resolvers : List Resolver) (key : CommandKey) :
    List AcReply :=
  if (resolveChain resolvers key).1 then (resolveChain resolvers key).2
  else (resolveChain resolvers key).2 ++ [⟨[]⟩]

/-- Models `MAX_POLLS` (serenity-command-handler/src/modules/ready_poll.rs line 26). -/
def MAX_POLLS : Nat := 20

/-- One entry of `PendingPolls` (ready_poll.rs line 28):
`(InteractionId, Option<String>, Option<String>, Vec<String>)` — the
interaction id, the optional count and go emotes, and the ready usernames. -/
structure PollEntry where
  interactionId : Nat
  countEmote : Option String
  goEmote : Option String
  usernames : List String
  deriving DecidableEq, Repr

/-- The eviction loop of `ReadyPoll::create_poll` (ready_poll.rs lines 49-51):
`while polls.len() >= MAX_POLLS { polls.pop_back(); }` — entries are dropped
from the back until the length is below the cap. The queue front is the list
head, so `pop_back` is `dropLast`. -/
def evictPolls (polls : List PollEntry) : List PollEntry :=
  if _h : polls.length ≥ MAX_POLLS then evictPolls polls.dropLast else polls
termination_by polls.length
decreasing_by
  simp only [List.length_dropLast, MAX_POLLS] at *
  omega

/-- The queue update performed by `ReadyPoll::create_poll` (ready_poll.rs lines
47-53): evict from the back while at capacity, then
`polls.push_front((interaction.id, count_emote, go_emote, Vec::new()))`. -/
def create_poll_update (polls : List PollEntry) (entry : PollEntry) :
    List PollEntry :=
  entry :: evictPolls polls

section Registry

variable {M : Type} [DecidableEq M]

/-!
Modelled from the spec: the serenity-command-handler crate's `HandlerBuilder`
(`with_module` / `module::<T>()`) is not under src/ — only its callers
(`ModLp::add_dependencies`, lp.rs lines 314-324) and the `Module`
implementations are. Per §4.2 of the spec the builder algorithm is:
1. if `M` is already present in the partially-built registry, return
   immediately; 2. otherwise build each declared dependency recursively;
3.-5. construct `M` and insert it keyed by type. The registry state is the
list of module types in construction order (an instance is identified with
its position); recursion is fueled, since the spec flags that the source has
no cycle detection and a cyclic declaration recurses unboundedly.
-/

mutual

/-- Modelled from the spec: `HandlerBuilder::module::<m>()` — one builder
request for module type `m` against registry state `s`. Returns the new state,
or `none` when the fuel is exhausted. -/
def buildModule (deps : M → List M) : Nat → List M → M → Option (List M)
  | 0, _, _ => Option.none
  | fuel + 1, s, m =>
    if m ∈ s then some s
    else
      match buildDeps deps fuel s (deps m) with
      | Option.none => Option.none
      | some s' => some (s' ++ [m])

/-- Modelled from the spec: building a list of declared dependencies in
declaration order, threading the registry state. -/
def buildDeps (deps : M → List M) : Nat → List M → List M → Option (List M)
  | _, s, [] => some s
  | fuel, s, d :: rest =>
    match buildModule deps fuel s d with
    | Option.none => Option.none
    | some s' => buildDeps deps fuel s' rest

end

/-- An acyclic dependency declaration, witnessed by a rank function: every
declared dependency has strictly smaller rank than its dependent (for a
finite module set this is equivalent to the declared graph having no directed
cycle). -/
def RankedAcyclic (deps : M → List M) (rank : M → Nat) : Prop :=
  ∀ m d, d ∈ deps m → rank d < rank m

/-- The registry invariant of a well-formed build state: every module present
has all its declared dependencies present, constructed strictly before it. -/
def DepsBuiltFirst (deps : M → List M) (s : List M) : Prop :=
  ∀ m ∈ s, ∀ d ∈ deps m, d ∈ s ∧ s.indexOf d < s.indexOf m

end Registry

/-- The module types appearing in the dependency declarations under src/:
`ModLp` and the four modules its `add_dependencies` requests, plus the
OAuth-flavoured Spotify module `Spotify<AuthCodeSpotify>` (`spotify` itself is
`Spotify<ClientCredsSpotify>`, a distinct type). -/
inductive ModId
  | lastfm
  | spotify
  | bandcamp
  | albumLookup
  | modLp
  | spotifyAuthCode
  deriving DecidableEq, Fintype, Repr

/-- Models `ModLp::add_dependencies` (serenity-command-handler/src/modules/lp.rs
lines 314-324) requests, in order, `Lastfm`, `Spotify`, `Bandcamp`,
`AlbumLookup`; the other modules appearing there declare no dependencies in
the provided sources. -/
def modDeps : ModId → List ModId
  | ModId.modLp => [ModId.lastfm, ModId.spotify, ModId.bandcamp, ModId.albumLookup]
  | _ => []

/-- A rank function witnessing that `modDeps` is acyclic. -/
def modRank : ModId → Nat
  | ModId.modLp => 1
  | _ => 0

/-- Models the message of `impl Module for Spotify<AuthCodeSpotify>`, `init` (serenity-command-handler/
src/modules/spotify.rs lines 266-273): whatever the module map contains, `init`
returns `Err(anyhow!("Must be initialized with new_auth_code and added using
with_module"))`. The opaque `ModuleMap` argument is an arbitrary type. -/
def spotifyAuthCodeInitMsg : String :=
  "Must be initialized with new_auth_code and added using with_module"

/-- Models `Spotify<AuthCodeSpotify>::init` itself (spotify.rs lines 268-272). -/
def spotify_auth_code_init {ModuleMap : Type} (_mm : ModuleMap) :
    Except String Unit :=
  Except.error spotifyAuthCodeInitMsg

/-- Builder state for the registration-tracking model: the registry (module
types in construction order) paired with the commands registered so far (each
module's `register_commands` appends its command keys to the shared store). -/
structure BuilderState (M : Type) where
  registry : List M
  commands : List CommandKey
  deriving Repr

/-- Modelled from the spec: the ordinary construction path of `with_module`
for a module with no declared dependencies, with a fallible `init` (§4.2 steps
1, 3-5): skip if present; otherwise run `init`, propagate its error, and on
success insert the instance and run its `register` step. -/
def with_module_via_init {M : Type} [DecidableEq M]
    (register : M → List CommandKey) (init : Except String Unit)
    (st : BuilderState M) (m : M) : Except String (BuilderState M) :=
  if m ∈ st.registry then Except.ok st
  else
    match init with
    | Except.error e => Except.error e
    | Except.ok _ =>
      Except.ok ⟨st.registry ++ [m], st.commands ++ register m⟩

/-- Modelled from the spec: `with_module` on a pre-supplied, already
constructed instance (§4.2: "the builder must accept an already-built instance
and still run its `register` step") — the instance is inserted without calling
`init`, and its `register` step runs. -/
def with_module_prebuilt {M : Type} (register : M → List CommandKey)
    (st : BuilderState M) (m : M) : BuilderState M :=
  ⟨st.registry ++ [m], st.commands ++ register m⟩

/-- A resolver that claims nothing and sends nothing (test fixture for the
completion-chain witness). -/
def resolverNo : Resolver := fun _ => (false, [])

/-- A resolver that claims every interaction, sending one suggestion reply
(test fixture for the completion-chain witness). -/
def resolverYes : Resolver := fun _ => (true, [⟨[("name", "value")]⟩])

/-!
## Theorems
-/

/-- C1: for every command invocation whose execution returns an error, the
dispatcher (`interaction_create`) produces exactly one reply to the invoking
interaction, that reply is marked ephemeral (visible only to the invoker), and
its content is the error's description — never zero replies and never two. -/
theorem c1_error_exactly_one_private_reply (e : Err) :
    interaction_create (Except.error e) = [⟨e.desc, MessageFlags.ephemeral⟩] ∧
    (interaction_create (Except.error e)).length = 1 :=
  ⟨rfl, rfl⟩

/-- C7: translation of a successful command outcome into a protocol reply —
the no-reply outcome maps to `none` and the dispatcher issues nothing; a
public-text outcome produces exactly one message with empty flags; a
private-text outcome produces exactly one message with the `EPHEMERAL` flag;
in both text cases the content is exactly the carried string. -/
theorem c7_outcome_translation :
    (CommandResponse.to_contents_and_flags CommandResponse.none = Option.none ∧
      interaction_create (Except.ok CommandResponse.none) = []) ∧
    (∀ s : String,
      CommandResponse.to_contents_and_flags (CommandResponse.public s) =
        some (s, MessageFlags.empty) ∧
      interaction_create (Except.ok (CommandResponse.public s)) =
        [⟨s, MessageFlags.empty⟩]) ∧
    (∀ s : String,
      CommandResponse.to_contents_and_flags (CommandResponse.priv s) =
        some (s, MessageFlags.ephemeral) ∧
      interaction_create (Except.ok (CommandResponse.priv s)) =
        [⟨s, MessageFlags.ephemeral⟩]) :=
  ⟨⟨rfl, rfl⟩, fun _ => ⟨rfl, rfl⟩, fun _ => ⟨rfl, rfl⟩⟩

/-- C8 counterexample: the claim as stated fails on the code — an invocation
whose name ("nope") is unknown but which carries no guild id hits the guild
check at main.rs lines 146-150 first and errors with "Must be run in a
server", not with the typed "Unknown command" error. -/
theorem c8_no_guild_counterexample :
    process_command (fun _ _ => Except.ok CommandResponse.none) Option.none
        "nope" =
      Except.error ⟨"Must be run in a server"⟩ ∧
    process_command (fun _ _ => Except.ok CommandResponse.none) Option.none
        "nope" ≠
      Except.error ⟨"Unknown command"⟩ :=
  ⟨rfl, by simp [process_command]⟩

/-- C8 (amended): a command invocation that carries a guild id and whose name
is not in the command table produces the typed "Unknown command" error, which
the dispatcher surfaces as exactly one ephemeral reply; no crash occurs (the
result is a value, never a panic). An invocation without a guild id instead
errors with "Must be run in a server" before the name is even looked at —
also surfaced as exactly one ephemeral reply. -/
theorem c8_unknown_command_private_reply
    (exec : Nat → String → Except Err CommandResponse) (g : Nat)
    (name : String) (h : name ∉ commandNames) :
    process_command exec (some g) name = Except.error ⟨"Unknown command"⟩ ∧
    interaction_create (process_command exec (some g) name) =
      [⟨"Unknown command", MessageFlags.ephemeral⟩] ∧
    interaction_create (process_command exec Option.none name) =
      [⟨"Must be run in a server", MessageFlags.ephemeral⟩] := by
  have he : process_command exec (some g) name =
      Except.error ⟨"Unknown command"⟩ := by
    simp [process_command, h]
  exact ⟨he, by rw [he]; rfl, rfl⟩

/-- Witness for C8 at the concrete unregistered name "ready_poll" in guild 1. -/
theorem c8_unknown_command_private_reply_witness :
    "ready_poll" ∉ commandNames ∧
    (process_command (fun _ _ => Except.ok CommandResponse.none) (some 1)
        "ready_poll" =
      Except.error ⟨"Unknown command"⟩ ∧
    interaction_create
        (process_command (fun _ _ => Except.ok CommandResponse.none) (some 1)
          "ready_poll") =
      [⟨"Unknown command", MessageFlags.ephemeral⟩] ∧
    interaction_create
        (process_command (fun _ _ => Except.ok CommandResponse.none)
          Option.none "ready_poll") =
      [⟨"Must be run in a server", MessageFlags.ephemeral⟩]) :=
  ⟨by decide, c8_unknown_command_private_reply _ 1 _ (by decide)⟩

/-- C6: a completion resolver invoked on an interaction it does not own (any
key other than `("lp", ChatInput)` for `ModLp::complete_lp`) reports "not
claimed" and sends no reply — no visible side effect at all. -/
theorem c6_unowned_key_no_effect (choices : List (String × String))
    (key : CommandKey) (h : key ≠ ("lp", CommandType.chatInput)) :
    complete_lp choices key = (false, []) := by
  simp [complete_lp, h]

/-- Witness for C6 at the concrete key `("quote", ChatInput)`. -/
theorem c6_unowned_key_no_effect_witness :
    (("quote", CommandType.chatInput) : CommandKey) ≠
      ("lp", CommandType.chatInput) ∧
    complete_lp [("a", "b")] ("quote", CommandType.chatInput) = (false, []) :=
  ⟨by decide, c6_unowned_key_no_effect _ _ (by decide)⟩

/-- The eviction loop of `ReadyPoll::create_poll` always leaves the pending
queue strictly below the `MAX_POLLS` cap. -/
theorem evictPolls_length_lt :
    ∀ (n : Nat) (polls : List PollEntry), polls.length ≤ n →
      (evictPolls polls).length < MAX_POLLS := by
  intro n
  induction n with
  | zero =>
    intro polls h
    rw [evictPolls]
    have h0 : polls.length = 0 := Nat.le_zero.mp h
    simp [h0, MAX_POLLS]
  | succ n ih =>
    intro polls h
    rw [evictPolls]
    split
    · apply ih
      simp only [List.length_dropLast]
      omega
    · simp only [MAX_POLLS] at *
      omega

/-- C10: whatever the starting state of the pending ready-polls queue,
`ReadyPoll::create_poll`'s queue update leaves at most `MAX_POLLS` (20)
entries — eviction pops from the back until below the cap, and only then is
the new poll pushed to the front (it ends up at the head). -/
theorem c10_poll_queue_capped (polls : List PollEntry) (entry : PollEntry) :
    (create_poll_update polls entry).length ≤ MAX_POLLS ∧
    (create_poll_update polls entry).head? = some entry := by
  constructor
  · have h := evictPolls_length_lt polls.length polls le_rfl
    simp only [create_poll_update, List.length_cons]
    omega
  · rfl

/-- C4: after any sequence of registrations, looking up a key returns the
descriptor most recently inserted under it (last write wins); when the key was
never registered the table is unchanged at it; and a further registration
under an existing key silently replaces the stored descriptor — insertion is
total, it never fails on a duplicate key. -/
theorem c4_last_write_wins {D : Type} (regs : List (CommandKey × D))
    (t : CommandTable D) (k : CommandKey) :
    (tableGet (register_commands t regs) k =
      match lastInserted regs k with
      | some d => some d
      | Option.none => tableGet t k) ∧
    (∀ d : D, tableGet (tableInsert (register_commands t regs) k d) k = some d) := by
  constructor
  · induction regs generalizing t with
    | nil => rfl
    | cons kd rest ih =>
      have hfold :
          register_commands t (kd :: rest) =
            register_commands (tableInsert t kd.1 kd.2) rest := rfl
      rw [hfold, ih (tableInsert t kd.1 kd.2)]
      cases hlast : lastInserted rest k with
      | some d => simp [lastInserted, hlast]
      | none =>
        simp only [lastInserted, hlast]
        by_cases hk : kd.1 = k
        · simp [tableGet, tableInsert, hk]
        · have hk' : ¬k = kd.1 := fun hkk => hk hkk.symm
          simp [tableGet, tableInsert, hk, hk']
  · intro d
    simp [tableGet, tableInsert]

/-- If every resolver in the chain reports "not mine" and sends nothing, the
chain reports unclaimed with no replies. -/
theorem resolveChain_none_claimed (key : CommandKey) :
    ∀ resolvers : List Resolver, (∀ r ∈ resolvers, r key = (false, [])) →
      resolveChain resolvers key = (false, []) := by
  intro resolvers
  induction resolvers with
  | nil => intro _; rfl
  | cons r rest ih =>
    intro h
    have hr : r key = (false, []) := h r (List.mem_cons_self r rest)
    have hrest := ih fun x hx => h x (List.mem_cons_of_mem r hx)
    simp [resolveChain, hr, hrest]

/-- C5: the completion resolvers are consulted in registration order and
consultation stops at the first resolver that claims the interaction — with
`pre` the non-claiming resolvers in front of the first claimer `z`, the
resolvers in `post` are never consulted, the replies are those of the
consulted resolvers in order, and the number of consultations is
`pre.length + 1`. If no resolver claims the interaction (each reports "not
mine" with no reply), the dispatcher still sends exactly one suggestion reply
carrying an empty choice list. -/
theorem c5_chain_order_and_fallback (key : CommandKey)
    (pre : List Resolver) (z : Resolver) (post : List Resolver)
    (resolvers : List Resolver)
    (hpre : ∀ r ∈ pre, (r key).1 = false) (hz : (z key).1 = true)
    (hnone : ∀ r ∈ resolvers, r key = (false, [])) :
    resolveChain (pre ++ z :: post) key =
      (true, (pre.map fun r => (r key).2).flatten ++ (z key).2) ∧
    consultedCount (pre ++ z :: post) key = pre.length + 1 ∧
    dispatch_autocomplete resolvers key = [⟨[]⟩] := by
  refine ⟨?_, ?_, ?_⟩
  · induction pre with
    | nil => simp [resolveChain, hz]
    | cons r rest ih =>
      have hr : (r key).1 = false := hpre r (List.mem_cons_self r rest)
      have hrest := ih fun x hx => hpre x (List.mem_cons_of_mem r hx)
      simp [resolveChain, hr, hrest]
  · induction pre with
    | nil => simp [consultedCount, hz]
    | cons r rest ih =>
      have hr : (r key).1 = false := hpre r (List.mem_cons_self r rest)
      have hrest := ih fun x hx => hpre x (List.mem_cons_of_mem r hx)
      simp [consultedCount, hr, hrest]
      omega
  · have hchain := resolveChain_none_claimed key resolvers hnone
    simp [dispatch_autocomplete, hchain]

/-- Witness for C5: resolvers `[no, no, yes, no]` — the two non-claiming
resolvers are consulted first, the claimer answers, the trailing resolver is
never consulted; and a chain of a single non-claiming resolver makes the
dispatcher answer with one empty suggestion reply. -/
theorem c5_chain_order_and_fallback_witness :
    (∀ r ∈ [resolverNo, resolverNo], (r ("lp", CommandType.chatInput)).1 = false) ∧
    (resolverYes ("lp", CommandType.chatInput)).1 = true ∧
    (∀ r ∈ [resolverNo], r ("lp", CommandType.chatInput) = (false, [])) ∧
    (resolveChain ([resolverNo, resolverNo] ++ resolverYes :: [resolverNo])
        ("lp", CommandType.chatInput) =
      (true,
        ([resolverNo, resolverNo].map fun r =>
          (r (("lp", CommandType.chatInput) : CommandKey)).2).flatten ++
        (resolverYes ("lp", CommandType.chatInput)).2) ∧
      consultedCount ([resolverNo, resolverNo] ++ resolverYes :: [resolverNo])
        ("lp", CommandType.chatInput) = [resolverNo, resolverNo].length + 1 ∧
      dispatch_autocomplete [resolverNo] ("lp", CommandType.chatInput) = [⟨[]⟩]) :=
  ⟨fun r hr => by fin_cases hr <;> rfl,
   rfl,
   fun r hr => by fin_cases hr <;> rfl,
   c5_chain_order_and_fallback ("lp", CommandType.chatInput)
     [resolverNo, resolverNo] resolverYes [resolverNo] [resolverNo]
     (fun r hr => by fin_cases hr <;> rfl) rfl
     (fun r hr => by fin_cases hr <;> rfl)⟩

section RegistryLemmas

variable {M : Type} [DecidableEq M]

/-- Unfolding equation: out of fuel. -/
theorem buildModule_zero (deps : M → List M) (s : List M) (m : M) :
    buildModule deps 0 s m = Option.none := by
  simp [buildModule]

/-- Unfolding equation: one builder request with fuel to spare. -/
theorem buildModule_succ (deps : M → List M) (fuel : Nat) (s : List M) (m : M) :
    buildModule deps (fuel + 1) s m =
      if m ∈ s then some s
      else
        match buildDeps deps fuel s (deps m) with
        | Option.none => Option.none
        | some s' => some (s' ++ [m]) := by
  rw [buildModule]

/-- Unfolding equation: no dependencies left to build. -/
theorem buildDeps_nil (deps : M → List M) (fuel : Nat) (s : List M) :
    buildDeps deps fuel s [] = some s := by
  rw [buildDeps]

/-- Unfolding equation: build the first declared dependency, then the rest. -/
theorem buildDeps_cons (deps : M → List M) (fuel : Nat) (s : List M) (d : M)
    (rest : List M) :
    buildDeps deps fuel s (d :: rest) =
      match buildModule deps fuel s d with
      | Option.none => Option.none
      | some s' => buildDeps deps fuel s' rest := by
  rw [buildDeps]

/-- The builder only ever appends to the registry: a successful request
returns the input state extended with newly constructed modules. -/
theorem build_extends (deps : M → List M) :
    ∀ fuel : Nat,
      (∀ s m s', buildModule deps fuel s m = some s' → ∃ t, s' = s ++ t) ∧
      (∀ l s s', buildDeps deps fuel s l = some s' → ∃ t, s' = s ++ t) := by
  intro fuel
  induction fuel with
  | zero =>
    have hM : ∀ s (m : M) s',
        buildModule deps 0 s m = some s' → ∃ t, s' = s ++ t := by
      intro s m s' h
      rw [buildModule_zero] at h
      cases h
    refine ⟨hM, ?_⟩
    intro l
    induction l with
    | nil =>
      intro s s' h
      rw [buildDeps_nil] at h
      cases h
      exact ⟨[], by simp⟩
    | cons d rest ih =>
      intro s s' h
      rw [buildDeps_cons, buildModule_zero] at h
      cases h
  | succ fuel ihf =>
    have hM : ∀ s (m : M) s',
        buildModule deps (fuel + 1) s m = some s' → ∃ t, s' = s ++ t := by
      intro s m s' h
      rw [buildModule_succ] at h
      by_cases hm : m ∈ s
      · rw [if_pos hm] at h
        cases h
        exact ⟨[], by simp⟩
      · rw [if_neg hm] at h
        cases hd : buildDeps deps fuel s (deps m) with
        | none => rw [hd] at h; cases h
        | some s1 =>
          rw [hd] at h
          cases h
          obtain ⟨t, ht⟩ := ihf.2 (deps m) s s1 hd
          exact ⟨t ++ [m], by simp [ht]⟩
    refine ⟨hM, ?_⟩
    intro l
    induction l with
    | nil =>
      intro s s' h
      rw [buildDeps_nil] at h
      cases h
      exact ⟨[], by simp⟩
    | cons d rest ih =>
      intro s s' h
      rw [buildDeps_cons] at h
      cases hd : buildModule deps (fuel + 1) s d with
      | none => rw [hd] at h; cases h
      | some s1 =>
        rw [hd] at h
        obtain ⟨t1, ht1⟩ := hM s d s1 hd
        obtain ⟨t2, ht2⟩ := ih s1 s' h
        exact ⟨t1 ++ t2, by simp [ht2, ht1]⟩

/-- A successful request leaves the requested module in the registry. -/
theorem build_mem (deps : M → List M) (fuel : Nat) (s : List M) (m : M)
    (s' : List M) (h : buildModule deps fuel s m = some s') : m ∈ s' := by
  cases fuel with
  | zero => rw [buildModule_zero] at h; cases h
  | succ fuel =>
    rw [buildModule_succ] at h
    by_cases hm : m ∈ s
    · rw [if_pos hm] at h
      cases h
      exact hm
    · rw [if_neg hm] at h
      cases hd : buildDeps deps fuel s (deps m) with
      | none => rw [hd] at h; cases h
      | some s1 =>
        rw [hd] at h
        cases h
        simp

/-- Every dependency in the request list ends up in the registry. -/
theorem buildDeps_mem (deps : M → List M) (fuel : Nat) :
    ∀ l s s', buildDeps deps fuel s l = some s' → ∀ d ∈ l, d ∈ s' := by
  intro l
  induction l with
  | nil =>
    intro s s' _ d hd
    cases hd
  | cons d0 rest ih =>
    intro s s' h d hd
    rw [buildDeps_cons] at h
    cases hm : buildModule deps fuel s d0 with
    | none => rw [hm] at h; cases h
    | some s1 =>
      rw [hm] at h
      rcases List.mem_cons.mp hd with hd0 | hdrest
      · subst hd0
        obtain ⟨t, ht⟩ := (build_extends deps fuel).2 rest s1 s' h
        have := build_mem deps fuel s d s1 hm
        subst ht
        exact List.mem_append_left t this
      · exact ih s1 s' h d hdrest

/-- Under an acyclic declaration, every module the builder adds while serving
a request for `m` has rank at most `rank m`; modules added while building a
dependency list are bounded by some listed dependency's rank. -/
theorem build_rank_bound (deps : M → List M) (rank : M → Nat)
    (hr : RankedAcyclic deps rank) :
    ∀ fuel : Nat,
      (∀ s m s', buildModule deps fuel s m = some s' →
        ∀ x ∈ s', x ∈ s ∨ rank x ≤ rank m) ∧
      (∀ l s s', buildDeps deps fuel s l = some s' →
        ∀ x ∈ s', x ∈ s ∨ ∃ d ∈ l, rank x ≤ rank d) := by
  intro fuel
  induction fuel with
  | zero =>
    have hM : ∀ s (m : M) s', buildModule deps 0 s m = some s' →
        ∀ x ∈ s', x ∈ s ∨ rank x ≤ rank m := by
      intro s m s' h
      rw [buildModule_zero] at h
      cases h
    refine ⟨hM, ?_⟩
    intro l
    induction l with
    | nil =>
      intro s s' h x hx
      rw [buildDeps_nil] at h
      cases h
      exact Or.inl hx
    | cons d rest ih =>
      intro s s' h
      rw [buildDeps_cons, buildModule_zero] at h
      cases h
  | succ fuel ihf =>
    have hM : ∀ s (m : M) s', buildModule deps (fuel + 1) s m = some s' →
        ∀ x ∈ s', x ∈ s ∨ rank x ≤ rank m := by
      intro s m s' h x hx
      rw [buildModule_succ] at h
      by_cases hm : m ∈ s
      · rw [if_pos hm] at h
        cases h
        exact Or.inl hx
      · rw [if_neg hm] at h
        cases hd : buildDeps deps fuel s (deps m) with
        | none => rw [hd] at h; cases h
        | some s1 =>
          rw [hd] at h
          cases h
          rcases List.mem_append.mp hx with hx1 | hxm
          · rcases ihf.2 (deps m) s s1 hd x hx1 with hxs | ⟨d, hdm, hrank⟩
            · exact Or.inl hxs
            · exact Or.inr (le_of_lt (lt_of_le_of_lt hrank (hr m d hdm)))
          · cases List.mem_singleton.mp hxm
            exact Or.inr le_rfl
    refine ⟨hM, ?_⟩
    intro l
    induction l with
    | nil =>
      intro s s' h x hx
      rw [buildDeps_nil] at h
      cases h
      exact Or.inl hx
    | cons d rest ih =>
      intro s s' h x hx
      rw [buildDeps_cons] at h
      cases hm : buildModule deps (fuel + 1) s d with
      | none => rw [hm] at h; cases h
      | some s1 =>
        rw [hm] at h
        rcases ih s1 s' h x hx with hx1 | ⟨d', hd', hrank⟩
        · rcases hM s d s1 hm x hx1 with hxs | hrank
          · exact Or.inl hxs
          · exact Or.inr ⟨d, List.mem_cons_self d rest, hrank⟩
        · exact Or.inr ⟨d', List.mem_cons_of_mem d hd', hrank⟩

/-- While serving a request for an absent module `m`, building its declared
dependencies never sneaks `m` itself into the registry (acyclicity). -/
theorem buildDeps_not_target (deps : M → List M) (rank : M → Nat)
    (hr : RankedAcyclic deps rank) (fuel : Nat) (s : List M) (m : M)
    (s1 : List M) (hm : m ∉ s)
    (hd : buildDeps deps fuel s (deps m) = some s1) : m ∉ s1 := by
  intro hms1
  rcases (build_rank_bound deps rank hr fuel).2 (deps m) s s1 hd m hms1 with
    hms | ⟨d, hdm, hrank⟩
  · exact hm hms
  · exact absurd (lt_of_le_of_lt hrank (hr m d hdm)) (lt_irrefl _)

/-- Under an acyclic declaration the builder never duplicates a module: a
registry without duplicates stays without duplicates. -/
theorem build_nodup (deps : M → List M) (rank : M → Nat)
    (hr : RankedAcyclic deps rank) :
    ∀ fuel : Nat,
      (∀ s m s', s.Nodup → buildModule deps fuel s m = some s' → s'.Nodup) ∧
      (∀ l s s', s.Nodup → buildDeps deps fuel s l = some s' → s'.Nodup) := by
  intro fuel
  induction fuel with
  | zero =>
    have hM : ∀ s (m : M) s', s.Nodup →
        buildModule deps 0 s m = some s' → s'.Nodup := by
      intro s m s' _ h
      rw [buildModule_zero] at h
      cases h
    refine ⟨hM, ?_⟩
    intro l
    induction l with
    | nil =>
      intro s s' hs h
      rw [buildDeps_nil] at h
      cases h
      exact hs
    | cons d rest ih =>
      intro s s' _ h
      rw [buildDeps_cons, buildModule_zero] at h
      cases h
  | succ fuel ihf =>
    have hM : ∀ s (m : M) s', s.Nodup →
        buildModule deps (fuel + 1) s m = some s' → s'.Nodup := by
      intro s m s' hs h
      rw [buildModule_succ] at h
      by_cases hm : m ∈ s
      · rw [if_pos hm] at h
        cases h
        exact hs
      · rw [if_neg hm] at h
        cases hd : buildDeps deps fuel s (deps m) with
        | none => rw [hd] at h; cases h
        | some s1 =>
          rw [hd] at h
          cases h
          have hs1 : s1.Nodup := ihf.2 (deps m) s s1 hs hd
          have hm1 : m ∉ s1 := buildDeps_not_target deps rank hr fuel s m s1 hm hd
          simp [List.nodup_append, hs1, hm1]
    refine ⟨hM, ?_⟩
    intro l
    induction l with
    | nil =>
      intro s s' hs h
      rw [buildDeps_nil] at h
      cases h
      exact hs
    | cons d rest ih =>
      intro s s' hs h
      rw [buildDeps_cons] at h
      cases hm : buildModule deps (fuel + 1) s d with
      | none => rw [hm] at h; cases h
      | some s1 =>
        rw [hm] at h
        exact ih s1 s' (hM s d s1 hs hm) h

/-- The invariant `DepsBuiltFirst` is preserved when a module whose dependencies are all
already present is appended to the registry. -/
theorem depsBuiltFirst_append (deps : M → List M) (s1 : List M) (m : M)
    (hdbf : DepsBuiltFirst deps s1) (hm1 : m ∉ s1)
    (hdeps : ∀ d ∈ deps m, d ∈ s1) : DepsBuiltFirst deps (s1 ++ [m]) := by
  intro m' hm' d hd
  rcases List.mem_append.mp hm' with hm's | hm'm
  · obtain ⟨hds, hidx⟩ := hdbf m' hm's d hd
    refine ⟨List.mem_append_left _ hds, ?_⟩
    rw [List.indexOf_append_of_mem hds, List.indexOf_append_of_mem hm's]
    exact hidx
  · cases List.mem_singleton.mp hm'm
    have hds := hdeps d hd
    refine ⟨List.mem_append_left _ hds, ?_⟩
    rw [List.indexOf_append_of_mem hds, List.indexOf_append_of_not_mem hm1]
    have : List.indexOf d s1 < s1.length := List.indexOf_lt_length.mpr hds
    simp
    omega

/-- Under an acyclic declaration, the builder preserves the
dependencies-built-first invariant: every module present has all its declared
dependencies present at strictly smaller construction index. -/
theorem build_deps_built_first (deps : M → List M) (rank : M → Nat)
    (hr : RankedAcyclic deps rank) :
    ∀ fuel : Nat,
      (∀ s m s', DepsBuiltFirst deps s →
        buildModule deps fuel s m = some s' → DepsBuiltFirst deps s') ∧
      (∀ l s s', DepsBuiltFirst deps s →
        buildDeps deps fuel s l = some s' → DepsBuiltFirst deps s') := by
  intro fuel
  induction fuel with
  | zero =>
    have hM : ∀ s (m : M) s', DepsBuiltFirst deps s →
        buildModule deps 0 s m = some s' → DepsBuiltFirst deps s' := by
      intro s m s' _ h
      rw [buildModule_zero] at h
      cases h
    refine ⟨hM, ?_⟩
    intro l
    induction l with
    | nil =>
      intro s s' hs h
      rw [buildDeps_nil] at h
      cases h
      exact hs
    | cons d rest ih =>
      intro s s' _ h
      rw [buildDeps_cons, buildModule_zero] at h
      cases h
  | succ fuel ihf =>
    have hM : ∀ s (m : M) s', DepsBuiltFirst deps s →
        buildModule deps (fuel + 1) s m = some s' → DepsBuiltFirst deps s' := by
      intro s m s' hs h
      rw [buildModule_succ] at h
      by_cases hm : m ∈ s
      · rw [if_pos hm] at h
        cases h
        exact hs
      · rw [if_neg hm] at h
        cases hd : buildDeps deps fuel s (deps m) with
        | none => rw [hd] at h; cases h
        | some s1 =>
          rw [hd] at h
          cases h
          have hs1 : DepsBuiltFirst deps s1 := ihf.2 (deps m) s s1 hs hd
          have hm1 : m ∉ s1 := buildDeps_not_target deps rank hr fuel s m s1 hm hd
          have hdeps : ∀ d ∈ deps m, d ∈ s1 := buildDeps_mem deps fuel (deps m) s s1 hd
          exact depsBuiltFirst_append deps s1 m hs1 hm1 hdeps
    refine ⟨hM, ?_⟩
    intro l
    induction l with
    | nil =>
      intro s s' hs h
      rw [buildDeps_nil] at h
      cases h
      exact hs
    | cons d rest ih =>
      intro s s' hs h
      rw [buildDeps_cons] at h
      cases hm : buildModule deps (fuel + 1) s d with
      | none => rw [hm] at h; cases h
      | some s1 =>
        rw [hm] at h
        exact ih s1 s' (hM s d s1 hs hm) h

/-- Under an acyclic declaration the recursion terminates: any request whose
target rank is below the available fuel succeeds. -/
theorem build_terminates (deps : M → List M) (rank : M → Nat)
    (hr : RankedAcyclic deps rank) :
    ∀ fuel : Nat,
      (∀ s m, rank m < fuel → ∃ s', buildModule deps fuel s m = some s') ∧
      (∀ l s, (∀ d ∈ l, rank d < fuel) →
        ∃ s', buildDeps deps fuel s l = some s') := by
  intro fuel
  induction fuel with
  | zero =>
    have hM : ∀ s (m : M), rank m < 0 →
        ∃ s', buildModule deps 0 s m = some s' := by
      intro s m hm
      exact absurd hm (Nat.not_lt_zero _)
    refine ⟨hM, ?_⟩
    intro l
    induction l with
    | nil =>
      intro s _
      exact ⟨s, buildDeps_nil deps 0 s⟩
    | cons d rest _ =>
      intro s hrank
      exact absurd (hrank d (List.mem_cons_self d rest)) (Nat.not_lt_zero _)
  | succ fuel ihf =>
    have hM : ∀ s (m : M), rank m < fuel + 1 →
        ∃ s', buildModule deps (fuel + 1) s m = some s' := by
      intro s m hm
      by_cases hms : m ∈ s
      · exact ⟨s, by rw [buildModule_succ, if_pos hms]⟩
      · have hd : ∀ d ∈ deps m, rank d < fuel := by
          intro d hd
          have := hr m d hd
          omega
        obtain ⟨s1, hs1⟩ := ihf.2 (deps m) s hd
        refine ⟨s1 ++ [m], ?_⟩
        rw [buildModule_succ, if_neg hms, hs1]
    refine ⟨hM, ?_⟩
    intro l
    induction l with
    | nil =>
      intro s _
      exact ⟨s, buildDeps_nil deps (fuel + 1) s⟩
    | cons d rest ih =>
      intro s hrank
      obtain ⟨s1, hs1⟩ :=
        hM s d (hrank d (List.mem_cons_self d rest))
      obtain ⟨s', hs'⟩ :=
        ih s1 fun d' hd' => hrank d' (List.mem_cons_of_mem d hd')
      exact ⟨s', by rw [buildDeps_cons, hs1]; exact hs'⟩

end RegistryLemmas

/-- C3: for every acyclic module dependency declaration (witnessed by a rank
function) and enough fuel, the recursive depth-first build terminates,
constructs each module at most once (the registry has no duplicates), leaves
the requested module constructed, and constructs every declared dependency
strictly before the module depending on it. -/
theorem c3_acyclic_build_ordered {M : Type} [DecidableEq M]
    (deps : M → List M) (rank : M → Nat) (hr : RankedAcyclic deps rank)
    (fuel : Nat) (m : M) (hf : rank m < fuel) :
    ∃ s, buildModule deps fuel [] m = some s ∧
      s.Nodup ∧ m ∈ s ∧ DepsBuiltFirst deps s := by
  obtain ⟨s, hs⟩ := (build_terminates deps rank hr fuel).1 [] m hf
  refine ⟨s, hs, ?_, build_mem deps fuel [] m s hs, ?_⟩
  · exact (build_nodup deps rank hr fuel).1 [] m s List.nodup_nil hs
  · refine (build_deps_built_first deps rank hr fuel).1 [] m s ?_ hs
    intro x hx
    cases hx

/-- Witness for C3 on the repository's declared graph: building `ModLp`
(which requests `Lastfm`, `Spotify`, `Bandcamp`, `AlbumLookup`) from the empty
registry terminates with each module built once and dependencies first. -/
theorem c3_acyclic_build_ordered_witness :
    RankedAcyclic modDeps modRank ∧ modRank ModId.modLp < 2 ∧
    (∃ s, buildModule modDeps 2 [] ModId.modLp = some s ∧
      s.Nodup ∧ ModId.modLp ∈ s ∧ DepsBuiltFirst modDeps s) :=
  ⟨by unfold RankedAcyclic; decide, by decide,
   c3_acyclic_build_ordered modDeps modRank (by unfold RankedAcyclic; decide)
     2 ModId.modLp (by decide)⟩

/-- C2: under an acyclic declaration, once a builder request for `m` has
succeeded, a second request for `m` against the resulting registry returns
that registry unchanged (no rebuild), and the registry holds exactly one
instance of `m` — never two instances of one type. -/
theorem c2_single_instance {M : Type} [DecidableEq M] (deps : M → List M)
    (rank : M → Nat) (hr : RankedAcyclic deps rank) (fuel : Nat)
    (s s' : List M) (m : M) (hs : s.Nodup)
    (h : buildModule deps fuel s m = some s') :
    buildModule deps fuel s' m = some s' ∧
    s'.count m = 1 ∧ s'.Nodup := by
  have hnodup : s'.Nodup := (build_nodup deps rank hr fuel).1 s m s' hs h
  have hmem : m ∈ s' := build_mem deps fuel s m s' h
  refine ⟨?_, List.count_eq_one_of_mem hnodup hmem, hnodup⟩
  cases fuel with
  | zero => rw [buildModule_zero] at h; cases h
  | succ fuel => rw [buildModule_succ, if_pos hmem]

/-- Witness for C2: after building `ModLp` against the repository's declared
graph, requesting it again returns the same registry and it is present exactly
once. -/
theorem c2_single_instance_witness :
    RankedAcyclic modDeps modRank ∧ ([] : List ModId).Nodup ∧
    buildModule modDeps 2 [] ModId.modLp =
      some [ModId.lastfm, ModId.spotify, ModId.bandcamp, ModId.albumLookup,
        ModId.modLp] ∧
    (buildModule modDeps 2
        [ModId.lastfm, ModId.spotify, ModId.bandcamp, ModId.albumLookup,
          ModId.modLp] ModId.modLp =
      some [ModId.lastfm, ModId.spotify, ModId.bandcamp, ModId.albumLookup,
        ModId.modLp] ∧
    [ModId.lastfm, ModId.spotify, ModId.bandcamp, ModId.albumLookup,
        ModId.modLp].count ModId.modLp = 1 ∧
    [ModId.lastfm, ModId.spotify, ModId.bandcamp, ModId.albumLookup,
        ModId.modLp].Nodup) := by
  have hbuild : buildModule modDeps 2 [] ModId.modLp =
      some [ModId.lastfm, ModId.spotify, ModId.bandcamp, ModId.albumLookup,
        ModId.modLp] := by
    simp [buildModule, buildDeps, modDeps]
  exact ⟨by unfold RankedAcyclic; decide, List.nodup_nil, hbuild,
    c2_single_instance modDeps modRank (by unfold RankedAcyclic; decide) 2 []
      _ ModId.modLp List.nodup_nil hbuild⟩

/-- C9: the OAuth Spotify module (`Spotify<AuthCodeSpotify>`) is never built
through the ordinary construction path — its `Module::init` returns an error
for every module map, so the ordinary `with_module` path propagates exactly
that error and inserts nothing; an instance can only enter the registry
pre-supplied fully constructed, and the pre-supplied path still runs its
`register` step (its commands reach the store) while inserting it. -/
theorem c9_auth_code_only_prebuilt {MM : Type} (mm : MM)
    (register : ModId → List CommandKey) (st : BuilderState ModId)
    (hm : ModId.spotifyAuthCode ∉ st.registry) :
    spotify_auth_code_init mm = Except.error spotifyAuthCodeInitMsg ∧
    with_module_via_init register (spotify_auth_code_init mm) st
        ModId.spotifyAuthCode =
      Except.error spotifyAuthCodeInitMsg ∧
    (with_module_prebuilt register st ModId.spotifyAuthCode).commands =
      st.commands ++ register ModId.spotifyAuthCode ∧
    ModId.spotifyAuthCode ∈
      (with_module_prebuilt register st ModId.spotifyAuthCode).registry := by
  refine ⟨rfl, ?_, rfl, by simp [with_module_prebuilt]⟩
  simp [with_module_via_init, hm, spotify_auth_code_init]

/-- Witness for C9 at the empty builder state with a one-command register
step. -/
theorem c9_auth_code_only_prebuilt_witness :
    ModId.spotifyAuthCode ∉ (⟨[], []⟩ : BuilderState ModId).registry ∧
    (spotify_auth_code_init () = Except.error spotifyAuthCodeInitMsg ∧
    with_module_via_init (fun _ => [("song", CommandType.chatInput)])
        (spotify_auth_code_init ()) ⟨[], []⟩ ModId.spotifyAuthCode =
      Except.error spotifyAuthCodeInitMsg ∧
    (with_module_prebuilt (fun _ => [("song", CommandType.chatInput)])
        ⟨[], []⟩ ModId.spotifyAuthCode).commands =
      ([] : List CommandKey) ++ [("song", CommandType.chatInput)] ∧
    ModId.spotifyAuthCode ∈
      (with_module_prebuilt (fun _ => [("song", CommandType.chatInput)])
        ⟨[], []⟩ ModId.spotifyAuthCode).registry) :=
  ⟨by decide,
   c9_auth_code_only_prebuilt () (fun _ => [("song", CommandType.chatInput)])
     ⟨[], []⟩ (by decide)⟩

end LpBot
